import Mathlib

/-!
# Verification of the `fancy-ip` argument decoder (`src/arg_parser.rs`)

A shallow embedding of `ArgParser` and its operations (`next_raw`,
`count_arguments`, `ignore_next`, `next_string`, `next_integer`), together
with the error model (`Error`, `ErrorKind`, `LiteralType`).

Modelling choices:
* `proc_macro::Span` is opaque in the source and only carried around for
  diagnostics; it is modelled as a `Nat` identifier, never interpreted.
* `litrs::Literal<String>` is modelled by the inductive `Lit`, one
  constructor per literal kind, carrying the decoded payload.  Integer
  literals in Rust source are non-negative, so the integer payload is a
  `Nat` (a leading minus sign is a separate punctuation token and never
  part of a literal token).
* `proc_macro::TokenTree` is modelled by `TokenTree` with the four Rust
  variants (`Group`, `Ident`, `Punct`, `Literal`); literal and group tokens
  carry their source text so that `to_string()` can be modelled.
* The iterator `self.stream` is the still-unconsumed `List TokenTree`;
  a `&mut self` method becomes a function returning the result paired with
  the updated `ArgParser`.
* `litrs::FromIntegerLiteral` is instantiated by the ten Rust integer
  types; `IntegerLit::value::<I>()` succeeds exactly when the literal's
  value fits in `I`, i.e. (for a non-negative literal) is at most `I`'s
  maximum.
* The `while let` loop of `count_arguments` is embedded with a structural
  fuel argument; `stream.length + 1` fuel is always sufficient because
  every iteration of the loop consumes at least one token
  (`countLoop_fuel_congr` below shows the fuel choice is irrelevant once
  large enough).
-/

namespace FancyIp

/-- The literal kinds of `litrs::Literal<String>`, with decoded payloads. -/
inductive Lit where
  | bool (b : Bool)
  | integer (v : Nat)
  | float (s : String)
  | char (c : Char)
  | str (s : String)
  | byte (b : Nat)
  | byteString (bs : List Nat)
  deriving DecidableEq, Repr

/-- `LiteralType` from `src/arg_parser.rs` (lines 30–39). -/
inductive LiteralType where
  | Bool
  | Integer
  | Float
  | Char
  | String
  | Byte
  | ByteString
  deriving DecidableEq, Repr

/-- `impl From<Literal<T>> for LiteralType` (`src/arg_parser.rs` lines 196–208). -/
def LiteralType.ofLit : Lit → LiteralType
  | .bool _ => .Bool
  | .integer _ => .Integer
  | .float _ => .Float
  | .char _ => .Char
  | .str _ => .String
  | .byte _ => .Byte
  | .byteString _ => .ByteString

/-- `proc_macro::TokenTree`: a literal (with its source text), a punctuation
character, an identifier, or a delimited group (source text only). -/
inductive TokenTree where
  | literal (l : Lit) (text : String) (span : Nat)
  | punct (c : Char) (span : Nat)
  | ident (name : String) (span : Nat)
  | group (text : String) (span : Nat)
  deriving DecidableEq, Repr

/-- `TokenTree::span()`. -/
def TokenTree.span : TokenTree → Nat
  | .literal _ _ sp => sp
  | .punct _ sp => sp
  | .ident _ sp => sp
  | .group _ sp => sp

/-- `TokenTree::to_string()`: the token's source text (a punctuation token
prints as its single character). -/
def TokenTree.text : TokenTree → String
  | .literal _ tx _ => tx
  | .punct c _ => String.singleton c
  | .ident n _ => n
  | .group tx _ => tx

/-- `ErrorKind` (`src/arg_parser.rs` lines 20–28). -/
inductive ErrorKind where
  | BadType (given : LiteralType) (expected : LiteralType)
  | OutOfBound
  | UnexpectedToken (text : String)
  deriving DecidableEq, Repr

/-- `Error` (`src/arg_parser.rs` lines 14–18). -/
structure Error where
  kind : ErrorKind
  span : Nat
  deriving DecidableEq, Repr

/-- `ArgParser` (`src/arg_parser.rs` lines 9–12): the running count of
parsed arguments and the unconsumed remainder of the token stream. -/
structure ArgParser where
  parsed : Nat
  stream : List TokenTree
  deriving DecidableEq, Repr

/-- `From<TokenStream> for ArgParser` (`src/arg_parser.rs` lines 187–194). -/
def ArgParser.ofStream (ts : List TokenTree) : ArgParser :=
  { parsed := 0, stream := ts }

/-- The Rust integer types implementing `litrs::FromIntegerLiteral`. -/
inductive IntRep where
  | u8 | u16 | u32 | u64 | u128
  | i8 | i16 | i32 | i64 | i128
  deriving DecidableEq, Repr

/-- Largest value representable in the given Rust integer type. -/
def IntRep.maxVal : IntRep → Nat
  | .u8 => 2 ^ 8 - 1
  | .u16 => 2 ^ 16 - 1
  | .u32 => 2 ^ 32 - 1
  | .u64 => 2 ^ 64 - 1
  | .u128 => 2 ^ 128 - 1
  | .i8 => 2 ^ 7 - 1
  | .i16 => 2 ^ 15 - 1
  | .i32 => 2 ^ 31 - 1
  | .i64 => 2 ^ 63 - 1
  | .i128 => 2 ^ 127 - 1

/-- `litrs::IntegerLit::value::<I>()`: the exact (non-negative) value of the
integer literal if it fits in the target type, otherwise `none`. -/
def integerLitValue (rep : IntRep) (v : Nat) : Option Nat :=
  if v ≤ rep.maxVal then some v else none

/-- `ArgParser::try_string_literal` (`src/arg_parser.rs` lines 42–54). -/
def tryStringLiteral (lit : Lit) (span : Nat) : Except Error String :=
  match lit with
  | .str v => .ok v
  | _ => .error { span := span,
                  kind := .BadType (LiteralType.ofLit lit) .String }

/-- `ArgParser::try_integer_literal::<I>` (`src/arg_parser.rs` lines 56–78). -/
def tryIntegerLiteral (rep : IntRep) (lit : Lit) (span : Nat) :
    Except Error Nat :=
  match lit with
  | .integer v =>
    match integerLitValue rep v with
    | some value => .ok value
    | none => .error { span := span, kind := .OutOfBound }
  | _ => .error { span := span,
                  kind := .BadType (LiteralType.ofLit lit) .Integer }

/-- `ArgParser::next_raw` (`src/arg_parser.rs` lines 80–112).  Returns the
`Result` together with the parser state as the borrowed `&mut self` leaves
it: every `self.stream.next()` call has consumed its token even on the
error paths, and `self.parsed` is incremented only on the `Ok(Some(..))`
path. -/
def nextRaw (p : ArgParser) :
    Except Error (Option (Lit × Nat)) × ArgParser :=
  match p.stream with
  | [] => (.ok none, p)
  | token :: rest =>
    match token with
    | .literal ret _tx sp =>
      match rest with
      | [] => (.ok (some (ret, sp)), { parsed := p.parsed + 1, stream := [] })
      | token2 :: rest2 =>
        match token2 with
        | .punct c sp2 =>
          if c = ',' then
            (.ok (some (ret, sp)), { parsed := p.parsed + 1, stream := rest2 })
          else
            (.error { kind := .UnexpectedToken (TokenTree.text (.punct c sp2)),
                      span := sp2 },
             { parsed := p.parsed, stream := rest2 })
        | _ =>
          (.error { kind := .UnexpectedToken token2.text, span := token2.span },
           { parsed := p.parsed, stream := rest2 })
    | _ =>
      (.error { kind := .UnexpectedToken token.text, span := token.span },
       { parsed := p.parsed, stream := rest })

/-- The loop body of `ArgParser::count_arguments`
(`while let Ok(Some(_)) = self.next_raw() {}`): iterate `next_raw` as long
as it returns `Ok(Some(..))`, stopping on `Ok(None)` *or* `Err(_)`.  The
`fuel` argument makes the recursion structural; each iteration consumes at
least one token, so `stream.length + 1` fuel is never exhausted. -/
def countLoop : Nat → ArgParser → ArgParser
  | 0, p => p
  | fuel + 1, p =>
    match nextRaw p with
    | (.ok (some _), p') => countLoop fuel p'
    | (.ok none, p') => p'
    | (.error _, p') => p'

/-- `ArgParser::count_arguments` (`src/arg_parser.rs` lines 117–121):
run the `while let Ok(Some(_))` loop to completion, then return
`self.parsed` (paired here with the final parser state). -/
def countArguments (p : ArgParser) : Nat × ArgParser :=
  let q := countLoop (p.stream.length + 1) p
  (q.parsed, q)

/-- `ArgParser::ignore_next` (`src/arg_parser.rs` lines 123–129). -/
def ignoreNext (p : ArgParser) : Except Error (Option Nat) × ArgParser :=
  match nextRaw p with
  | (.ok (some (_, span)), p') => (.ok (some span), p')
  | (.ok none, p') => (.ok none, p')
  | (.error e, p') => (.error e, p')

/-- `ArgParser::next_string` (`src/arg_parser.rs` lines 131–137). -/
def nextString (p : ArgParser) :
    Except Error (Option (String × Nat)) × ArgParser :=
  match nextRaw p with
  | (.ok (some (literal, span)), p') =>
    match tryStringLiteral literal span with
    | .ok v => (.ok (some (v, span)), p')
    | .error e => (.error e, p')
  | (.ok none, p') => (.ok none, p')
  | (.error e, p') => (.error e, p')

/-- `ArgParser::next_integer::<I>` (`src/arg_parser.rs` lines 139–145). -/
def nextInteger (rep : IntRep) (p : ArgParser) :
    Except Error (Option (Nat × Nat)) × ArgParser :=
  match nextRaw p with
  | (.ok (some (literal, span)), p') =>
    match tryIntegerLiteral rep literal span with
    | .ok v => (.ok (some (v, span)), p')
    | .error e => (.error e, p')
  | (.ok none, p') => (.ok none, p')
  | (.error e, p') => (.error e, p')

/-- `WF ts n`: the token list `ts` is a well-formed
`literal (, literal)*` argument list of `n` arguments — single comma
separators, no trailing comma. -/
inductive WF : List TokenTree → Nat → Prop where
  | nil : WF [] 0
  | single (l : Lit) (tx : String) (sp : Nat) :
      WF [.literal l tx sp] 1
  | cons (l : Lit) (tx : String) (sp sp2 : Nat) {ts : List TokenTree}
      {n : Nat} (hne : ts ≠ []) (h : WF ts n) :
      WF (.literal l tx sp :: .punct ',' sp2 :: ts) (n + 1)

/-- The parser state after `k` calls to `next_raw`. -/
def stateAfter (p : ArgParser) : Nat → ArgParser
  | 0 => p
  | k + 1 => (nextRaw (stateAfter p k)).2

/-- The result of the `(k+1)`-th call to `next_raw`, calls counted from the
state `p`. -/
def resultAt (p : ArgParser) (k : Nat) : Except Error (Option (Lit × Nat)) :=
  (nextRaw (stateAfter p k)).1

/-- Whether a `Result<Option<..>, _>` is `Ok(Some(..))`. -/
def isOkSome {α : Type} : Except Error (Option α) → Bool
  | .ok (some _) => true
  | _ => false

/-! ## Single-step lemmas about `next_raw` -/

theorem nextRaw_stream_lt (p : ArgParser) (r : Lit × Nat) (p' : ArgParser)
    (h : nextRaw p = (.ok (some r), p')) :
    p'.stream.length < p.stream.length := by
  unfold nextRaw at h
  rcases p with ⟨n, ts⟩
  match ts with
  | [] => simp at h
  | .literal l _tx sp :: rest =>
    match rest with
    | [] => simp at h; simp [← h.2]
    | .literal l2 tx2 sp2 :: rest2 => simp at h
    | .punct c sp2 :: rest2 =>
      simp at h
      by_cases hc : c = ','
      · simp [hc] at h
        simp [← h.2]
        omega
      · simp [hc] at h
    | .ident nm sp2 :: rest2 => simp at h
    | .group tx2 sp2 :: rest2 => simp at h
  | .punct c sp :: rest => simp at h
  | .ident nm sp :: rest => simp at h
  | .group tx sp :: rest => simp at h

theorem nextRaw_parsed_delta (p : ArgParser) :
    (nextRaw p).2.parsed =
      if isOkSome (nextRaw p).1 then p.parsed + 1 else p.parsed := by
  rcases p with ⟨n, ts⟩
  match ts with
  | [] => simp [nextRaw, isOkSome]
  | .literal l tx sp :: rest =>
    match rest with
    | [] => simp [nextRaw, isOkSome]
    | .punct c sp2 :: rest2 =>
      by_cases hc : c = ',' <;> simp [nextRaw, hc, isOkSome]
    | .literal l2 tx2 sp2 :: rest2 => simp [nextRaw, isOkSome]
    | .ident nm sp2 :: rest2 => simp [nextRaw, isOkSome]
    | .group tx2 sp2 :: rest2 => simp [nextRaw, isOkSome]
  | .punct c sp :: rest => simp [nextRaw, isOkSome]
  | .ident nm sp :: rest => simp [nextRaw, isOkSome]
  | .group tx sp :: rest => simp [nextRaw, isOkSome]

theorem nextRaw_nil {p : ArgParser} (h : p.stream = []) :
    nextRaw p = (.ok none, p) := by
  rcases p with ⟨n, ts⟩
  simp only at h
  subst h
  simp [nextRaw]

theorem nextRaw_parsed_ok_some {p p' : ArgParser} {r : Lit × Nat}
    (h : nextRaw p = (.ok (some r), p')) : p'.parsed = p.parsed + 1 := by
  have := nextRaw_parsed_delta p
  rw [h] at this
  simpa [isOkSome] using this

theorem nextRaw_parsed_error {p p' : ArgParser} {e : Error}
    (h : nextRaw p = (.error e, p')) : p'.parsed = p.parsed := by
  have := nextRaw_parsed_delta p
  rw [h] at this
  simpa [isOkSome] using this

theorem nextRaw_parsed_le (p : ArgParser) :
    p.parsed ≤ (nextRaw p).2.parsed := by
  rw [nextRaw_parsed_delta]
  split <;> omega

theorem nextRaw_ok_none_nil {p p' : ArgParser}
    (h : nextRaw p = (.ok none, p')) : p.stream = [] ∧ p' = p := by
  rcases p with ⟨m, ts⟩
  have hnil : ts = [] := by
    match ts with
    | [] => rfl
    | .literal l tx sp :: rest =>
      match rest with
      | [] => simp [nextRaw] at h
      | .punct c sp2 :: rest2 =>
        by_cases hc : c = ',' <;> simp [nextRaw, hc] at h
      | .literal l2 tx2 sp2 :: rest2 => simp [nextRaw] at h
      | .ident nm sp2 :: rest2 => simp [nextRaw] at h
      | .group tx2 sp2 :: rest2 => simp [nextRaw] at h
    | .punct c sp :: rest => simp [nextRaw] at h
    | .ident nm sp :: rest => simp [nextRaw] at h
    | .group tx sp :: rest => simp [nextRaw] at h
  subst hnil
  have := nextRaw_nil (p := ⟨m, []⟩) rfl
  rw [this] at h
  exact ⟨rfl, ((Prod.mk.injEq _ _ _ _).mp h).2.symm⟩

/-! ## Lemmas about the `count_arguments` loop -/

theorem countLoop_fuel_congr :
    ∀ (f : Nat) (g : Nat) (p : ArgParser),
      p.stream.length < f → p.stream.length < g →
      countLoop f p = countLoop g p := by
  intro f
  induction f with
  | zero => intro g p hf hg; omega
  | succ f ih =>
    intro g p hf hg
    cases g with
    | zero => omega
    | succ g =>
      rcases hr : nextRaw p with ⟨r, p'⟩
      match r with
      | .ok (some v) =>
        have hlt := nextRaw_stream_lt p v p' hr
        calc countLoop (f + 1) p = countLoop f p' := by
              simp [countLoop, hr]
          _ = countLoop g p' := ih g p' (by omega) (by omega)
          _ = countLoop (g + 1) p := by simp [countLoop, hr]
      | .ok none => simp [countLoop, hr]
      | .error e => simp [countLoop, hr]

theorem countArguments_step {p p' : ArgParser} {r : Lit × Nat}
    (h : nextRaw p = (.ok (some r), p')) :
    countArguments p = countArguments p' := by
  have hlt := nextRaw_stream_lt p r p' h
  have h1 : countLoop (p.stream.length + 1) p
      = countLoop (p'.stream.length + 1) p' := by
    calc countLoop (p.stream.length + 1) p
        = countLoop p.stream.length p' := by simp [countLoop, h]
      _ = countLoop (p'.stream.length + 1) p' :=
          countLoop_fuel_congr _ _ p' (by omega) (by omega)
  simp [countArguments, h1]

theorem countArguments_stop_none {p p' : ArgParser}
    (h : nextRaw p = (.ok none, p')) :
    countArguments p = (p'.parsed, p') := by
  simp [countArguments, countLoop, h]

theorem countArguments_stop_error {p p' : ArgParser} {e : Error}
    (h : nextRaw p = (.error e, p')) :
    countArguments p = (p'.parsed, p') := by
  simp [countArguments, countLoop, h]

/-- `count_arguments` returns the final `parsed` field, which is at least
the starting one. -/
theorem countArguments_spec (p : ArgParser) :
    p.parsed ≤ (countArguments p).1 ∧
      (countArguments p).2.parsed = (countArguments p).1 := by
  generalize hn : p.stream.length = n
  induction n using Nat.strong_induction_on generalizing p with
  | _ n ih =>
    rcases hr : nextRaw p with ⟨r, p'⟩
    match r with
    | .ok (some v) =>
      have hlt := nextRaw_stream_lt p v p' hr
      rw [countArguments_step hr]
      have hrec := ih p'.stream.length (by omega) p' rfl
      have hp : p'.parsed = p.parsed + 1 := nextRaw_parsed_ok_some hr
      exact ⟨by omega, hrec.2⟩
    | .ok none =>
      rw [countArguments_stop_none hr]
      have heq := (nextRaw_ok_none_nil hr).2
      subst heq
      exact ⟨le_refl _, rfl⟩
    | .error e =>
      rw [countArguments_stop_error hr]
      have hp : p'.parsed = p.parsed := nextRaw_parsed_error hr
      exact ⟨by omega, rfl⟩

/-! ## Lemmas about well-formed argument streams -/

theorem WF.zero_nil {ts : List TokenTree} (h : WF ts 0) : ts = [] := by
  cases h
  rfl

/-- On a well-formed stream with at least one argument, `next_raw` succeeds,
increments `parsed`, and leaves a well-formed stream with one argument
fewer. -/
theorem nextRaw_wf {ts : List TokenTree} {n : Nat} (p : Nat)
    (h : WF ts (n + 1)) :
    ∃ l sp ts', nextRaw ⟨p, ts⟩ = (.ok (some (l, sp)), ⟨p + 1, ts'⟩) ∧
      WF ts' n := by
  cases h with
  | single l tx sp =>
    exact ⟨l, sp, [], by simp [nextRaw], WF.nil⟩
  | cons l tx sp sp2 hne h =>
    exact ⟨l, sp, _, by simp [nextRaw], h⟩

/-- `count_arguments` on a parser whose remaining stream is a well-formed
`n`-argument list: it consumes the entire stream and returns
`parsed + n`. -/
theorem countArguments_wf {ts : List TokenTree} {n : Nat} (p : Nat)
    (h : WF ts n) :
    countArguments ⟨p, ts⟩ = (p + n, ⟨p + n, []⟩) := by
  induction n generalizing ts p with
  | zero =>
    rw [h.zero_nil]
    have hstop : nextRaw (⟨p, []⟩ : ArgParser) = (.ok none, ⟨p, []⟩) := by
      simp [nextRaw]
    rw [countArguments_stop_none hstop]
    simp
  | succ m ih =>
    obtain ⟨l, sp, ts', hstep, hwf⟩ := nextRaw_wf p h
    rw [countArguments_step hstep, ih (p + 1) hwf]
    have hpm : p + 1 + m = p + (m + 1) := by omega
    rw [hpm]

theorem stateAfter_wf {ts : List TokenTree} {n : Nat} (p : Nat)
    (h : WF ts n) {i : Nat} (hi : i ≤ n) :
    ∃ ts', stateAfter ⟨p, ts⟩ i = ⟨p + i, ts'⟩ ∧ WF ts' (n - i) := by
  induction i with
  | zero => exact ⟨ts, rfl, by simpa using h⟩
  | succ j ih =>
    obtain ⟨ts_j, hstate, hwf⟩ := ih (Nat.le_of_succ_le hi)
    have hj : n - j = (n - (j + 1)) + 1 := by omega
    rw [hj] at hwf
    obtain ⟨l, sp, ts', hstep, hwf'⟩ := nextRaw_wf (p + j) hwf
    refine ⟨ts', ?_, hwf'⟩
    show (nextRaw (stateAfter ⟨p, ts⟩ j)).2 = _
    rw [hstate, hstep]
    rfl

/-! ## Lemmas about typed coercion -/

/-- When `next_raw` yields a non-string literal, `next_string` returns the
`BadType` error at the literal's span, with the state `next_raw` left. -/
theorem nextString_badtype {p p' : ArgParser} {l : Lit} {sp : Nat}
    (h : nextRaw p = (.ok (some (l, sp)), p')) (hs : ∀ s, l ≠ .str s) :
    nextString p =
      (.error ⟨.BadType (LiteralType.ofLit l) .String, sp⟩, p') := by
  unfold nextString
  rw [h]
  cases l with
  | str s => exact absurd rfl (hs s)
  | bool b => simp [tryStringLiteral]
  | integer v => simp [tryStringLiteral]
  | float s => simp [tryStringLiteral]
  | char c => simp [tryStringLiteral]
  | byte b => simp [tryStringLiteral]
  | byteString bs => simp [tryStringLiteral]

/-- `next_string` never substitutes a value: a successful result is exactly
the payload of a string literal returned by `next_raw`. -/
theorem nextString_ok_some {p : ArgParser} {s : String} {sp : Nat}
    (h : (nextString p).1 = .ok (some (s, sp))) :
    (nextRaw p).1 = .ok (some (.str s, sp)) := by
  unfold nextString at h
  rcases hr : nextRaw p with ⟨r, p'⟩
  rw [hr] at h
  match r with
  | .error e => simp at h
  | .ok none => simp at h
  | .ok (some (l, sp')) =>
    cases l <;> simp [tryStringLiteral] at h
    simp [h.1, h.2]

/-- When `next_raw` yields an integer literal whose value exceeds the
requested representation's maximum, `next_integer` returns `OutOfBound`
at the literal's span, with the state `next_raw` left. -/
theorem nextInteger_oob {rep : IntRep} {p p' : ArgParser} {v sp : Nat}
    (h : nextRaw p = (.ok (some (.integer v, sp)), p'))
    (hv : rep.maxVal < v) :
    nextInteger rep p = (.error ⟨.OutOfBound, sp⟩, p') := by
  unfold nextInteger
  rw [h]
  simp [tryIntegerLiteral, integerLitValue, Nat.not_le.mpr hv]

/-- When `next_raw` yields a non-integer literal, `next_integer` returns
the `BadType` error (`given` = the literal's actual kind, `expected` =
`Integer`) at the literal's span, with the state `next_raw` left. -/
theorem nextInteger_badtype {rep : IntRep} {p p' : ArgParser} {l : Lit}
    {sp : Nat}
    (h : nextRaw p = (.ok (some (l, sp)), p'))
    (hi : ∀ v, l ≠ .integer v) :
    nextInteger rep p =
      (.error ⟨.BadType (LiteralType.ofLit l) .Integer, sp⟩, p') := by
  unfold nextInteger
  rw [h]
  cases l with
  | integer v => exact absurd rfl (hi v)
  | bool b => simp [tryIntegerLiteral]
  | float s => simp [tryIntegerLiteral]
  | char c => simp [tryIntegerLiteral]
  | str s => simp [tryIntegerLiteral]
  | byte b => simp [tryIntegerLiteral]
  | byteString bs => simp [tryIntegerLiteral]

/-- `next_integer` never wraps or truncates: a successful result is exactly
the integer literal's value, and that value fits the representation. -/
theorem nextInteger_ok_some {rep : IntRep} {p : ArgParser} {i sp : Nat}
    (h : (nextInteger rep p).1 = .ok (some (i, sp))) :
    (nextRaw p).1 = .ok (some (.integer i, sp)) ∧ i ≤ rep.maxVal := by
  unfold nextInteger at h
  rcases hr : nextRaw p with ⟨r, p'⟩
  rw [hr] at h
  match r with
  | .error e => simp at h
  | .ok none => simp at h
  | .ok (some (l, sp')) =>
    cases l <;> simp [tryIntegerLiteral] at h
    rename_i v
    by_cases hfit : v ≤ rep.maxVal <;> simp [integerLitValue, hfit] at h
    obtain ⟨hi, hsp⟩ := h
    subst hi
    subst hsp
    exact ⟨by simp, hfit⟩

theorem nextString_state (p : ArgParser) :
    (nextString p).2 = (nextRaw p).2 := by
  unfold nextString
  rcases hr : nextRaw p with ⟨r, p'⟩
  match r with
  | .ok (some (l, sp)) =>
    rcases h2 : tryStringLiteral l sp with e | v <;> simp [h2]
  | .ok none => simp
  | .error e => simp

theorem nextInteger_state (rep : IntRep) (p : ArgParser) :
    (nextInteger rep p).2 = (nextRaw p).2 := by
  unfold nextInteger
  rcases hr : nextRaw p with ⟨r, p'⟩
  match r with
  | .ok (some (l, sp)) =>
    rcases h2 : tryIntegerLiteral rep l sp with e | v <;> simp [h2]
  | .ok none => simp
  | .error e => simp

theorem ignoreNext_state (p : ArgParser) :
    (ignoreNext p).2 = (nextRaw p).2 := by
  unfold ignoreNext
  rcases hr : nextRaw p with ⟨r, p'⟩
  match r with
  | .ok (some (l, sp)) => simp
  | .ok none => simp
  | .error e => simp

/-! ## Claims -/

/-- C1: For every token stream that is a well-formed `literal (, literal)*`
sequence of `n` arguments (single comma separators, no trailing comma),
exactly `n` consecutive calls to `next_raw` return `Ok(Some(..))`, the
`(n+1)`-th call returns `Ok(None)`, and a subsequent `count_arguments`
call returns `n`. -/
theorem C1_wellformed_exact_count {ts : List TokenTree} {n : Nat}
    (h : WF ts n) :
    (∀ i, i < n → ∃ r, resultAt (ArgParser.ofStream ts) i = .ok (some r)) ∧
    resultAt (ArgParser.ofStream ts) n = .ok none ∧
    (countArguments (stateAfter (ArgParser.ofStream ts) (n + 1))).1 = n := by
  have hof : ArgParser.ofStream ts = (⟨0, ts⟩ : ArgParser) := rfl
  rw [hof]
  obtain ⟨ts_n, hstate_n, hwf_n⟩ := stateAfter_wf 0 h (le_refl n)
  have hsn : stateAfter ⟨0, ts⟩ n = ⟨n, ts_n⟩ := by simpa using hstate_n
  have hnil : ts_n = [] := by
    have : WF ts_n 0 := by simpa using hwf_n
    exact this.zero_nil
  subst hnil
  refine ⟨?_, ?_, ?_⟩
  · intro i hi
    obtain ⟨ts_i, hstate, hwf⟩ := stateAfter_wf 0 h (Nat.le_of_lt hi)
    have hj : n - i = (n - i - 1) + 1 := by omega
    rw [hj] at hwf
    obtain ⟨l, sp, ts', hstep, _⟩ := nextRaw_wf (0 + i) hwf
    refine ⟨(l, sp), ?_⟩
    show (nextRaw (stateAfter ⟨0, ts⟩ i)).1 = _
    rw [hstate, hstep]
  · show (nextRaw (stateAfter ⟨0, ts⟩ n)).1 = _
    rw [hsn, nextRaw_nil rfl]
  · have hs1 : stateAfter (⟨0, ts⟩ : ArgParser) (n + 1) = ⟨n, []⟩ := by
      show (nextRaw (stateAfter ⟨0, ts⟩ n)).2 = _
      rw [hsn, nextRaw_nil rfl]
    rw [hs1, countArguments_wf n WF.nil]
    simp

theorem C1_wellformed_exact_count_witness :
    resultAt (ArgParser.ofStream
      [.literal (.str "a") "\x22a\x22" 1, .punct ',' 2,
       .literal (.integer 7) "7" 3]) 2 = .ok none ∧
    (countArguments (stateAfter (ArgParser.ofStream
      [.literal (.str "a") "\x22a\x22" 1, .punct ',' 2,
       .literal (.integer 7) "7" 3]) 3)).1 = 2 :=
  (C1_wellformed_exact_count
    (WF.cons (.str "a") "\x22a\x22" 1 2 (by simp)
      (WF.single (.integer 7) "7" 3))).2

/-- C2: For every integer literal argument whose exact numeric value does
not fit in the caller-requested integer representation, `next_integer`
returns an `OutOfBound` error at that literal's location; and it never
returns a wrapped or truncated value — a successful result is exactly the
literal's value, within range. -/
theorem C2_integer_out_of_bound (rep : IntRep) (p : ArgParser) :
    (∀ v sp p', nextRaw p = (.ok (some (.integer v, sp)), p') →
        rep.maxVal < v →
        nextInteger rep p = (.error ⟨.OutOfBound, sp⟩, p')) ∧
    (∀ i sp, (nextInteger rep p).1 = .ok (some (i, sp)) →
        (nextRaw p).1 = .ok (some (.integer i, sp)) ∧ i ≤ rep.maxVal) :=
  ⟨fun _v _sp _p' h hv => nextInteger_oob h hv,
   fun _i _sp h => nextInteger_ok_some h⟩

theorem C2_integer_out_of_bound_witness :
    nextInteger .u32 (ArgParser.ofStream
      [.literal (.integer 4294967296) "4294967296" 7]) =
      (.error ⟨.OutOfBound, 7⟩, ⟨1, []⟩) :=
  (C2_integer_out_of_bound .u32 (ArgParser.ofStream
      [.literal (.integer 4294967296) "4294967296" 7])).1
    4294967296 7 ⟨1, []⟩ rfl (by decide)

/-- C3: For every non-string literal argument, `next_string` returns a
`BadType` error whose `given` field is the literal's actual kind and whose
`expected` field is `String`, at the literal's location; and it never
substitutes a value — a successful result is exactly a string literal's
payload. -/
theorem C3_nonstring_badtype (p : ArgParser) :
    (∀ l sp p', nextRaw p = (.ok (some (l, sp)), p') →
        (∀ s, l ≠ .str s) →
        nextString p =
          (.error ⟨.BadType (LiteralType.ofLit l) .String, sp⟩, p')) ∧
    (∀ s sp, (nextString p).1 = .ok (some (s, sp)) →
        (nextRaw p).1 = .ok (some (.str s, sp))) :=
  ⟨fun _l _sp _p' h hs => nextString_badtype h hs,
   fun _s _sp h => nextString_ok_some h⟩

theorem C3_nonstring_badtype_witness :
    nextString (ArgParser.ofStream [.literal (.integer 42) "42" 5]) =
      (.error ⟨.BadType .Integer .String, 5⟩, ⟨1, []⟩) :=
  (C3_nonstring_badtype (ArgParser.ofStream
      [.literal (.integer 42) "42" 5])).1
    (.integer 42) 5 ⟨1, []⟩ rfl (by intro s; simp)

/-- C4: For every token stream beginning with a literal token followed by a
token that is not a comma punctuation (a second literal, wrong
punctuation, or any other token), `next_raw` returns an `UnexpectedToken`
error carrying that second token's text, located at the second token's
location, with both tokens consumed and `parsed` unchanged. -/
theorem C4_missing_separator_error (p : ArgParser) (l : Lit) (tx : String)
    (sp : Nat) (t2 : TokenTree) (rest : List TokenTree)
    (hs : p.stream = .literal l tx sp :: t2 :: rest)
    (hnc : ∀ sp2, t2 ≠ .punct ',' sp2) :
    nextRaw p = (.error ⟨.UnexpectedToken t2.text, t2.span⟩,
      ⟨p.parsed, rest⟩) := by
  rcases p with ⟨m, ts⟩
  simp only at hs
  subst hs
  cases t2 with
  | punct c sp2 =>
    have hc : c ≠ ',' := fun hcc => hnc sp2 (by rw [hcc])
    simp [nextRaw, hc, TokenTree.text, TokenTree.span]
  | literal l2 tx2 sp2 => simp [nextRaw, TokenTree.text, TokenTree.span]
  | ident nm sp2 => simp [nextRaw, TokenTree.text, TokenTree.span]
  | group tx2 sp2 => simp [nextRaw, TokenTree.text, TokenTree.span]

theorem C4_missing_separator_error_witness :
    nextRaw (ArgParser.ofStream
      [.literal (.str "a") "\x22a\x22" 11, .literal (.str "b") "\x22b\x22" 12]) =
      (.error ⟨.UnexpectedToken "\x22b\x22", 12⟩, ⟨0, []⟩) :=
  C4_missing_separator_error
    (ArgParser.ofStream
      [.literal (.str "a") "\x22a\x22" 11, .literal (.str "b") "\x22b\x22" 12])
    (.str "a") "\x22a\x22" 11 (.literal (.str "b") "\x22b\x22" 12) [] rfl
    (by intro sp2; simp)

/-- C5 (counterexample): on the stream `1 x 3` (literal, identifier,
literal), `count_arguments` stops at the grammar error: it leaves the last
literal token unconsumed in the stream and returns 0, not the total number
of literal arguments supplied — refuting the claim that it consumes every
remaining token and counts all arguments. -/
theorem C5_count_counterexample :
    (countArguments (ArgParser.ofStream
      [.literal (.integer 1) "1" 21, .ident "x" 22,
       .literal (.integer 3) "3" 23])).2.stream =
      [.literal (.integer 3) "3" 23] ∧
    (countArguments (ArgParser.ofStream
      [.literal (.integer 1) "1" 21, .ident "x" 22,
       .literal (.integer 3) "3" 23])).1 = 0 := by
  decide

/-- C5 (amended): `count_arguments` repeatedly calls `next_raw` and stops
at the first result that is not `Ok(Some(..))`: on a well-formed remaining
stream it consumes every remaining token and returns `parsed` plus the
number of remaining arguments, while on a grammar error it stops at that
error (the offending tokens are already consumed, later tokens are not)
and returns the `parsed` count accumulated so far. -/
theorem C5_count_drains_or_stops :
    (∀ (p : Nat) (ts : List TokenTree) (n : Nat), WF ts n →
        countArguments ⟨p, ts⟩ = (p + n, ⟨p + n, []⟩)) ∧
    (∀ (q q' : ArgParser) (e : Error), nextRaw q = (.error e, q') →
        countArguments q = (q'.parsed, q')) :=
  ⟨fun p _ts _n h => countArguments_wf p h,
   fun _q _q' _e h => countArguments_stop_error h⟩

theorem C5_count_drains_or_stops_witness :
    countArguments ⟨0, [.literal (.bool true) "true" 24]⟩ =
      (0 + 1, ⟨0 + 1, []⟩) ∧
    countArguments (ArgParser.ofStream [.ident "y" 26]) = (0, ⟨0, []⟩) :=
  ⟨C5_count_drains_or_stops.1 0 [.literal (.bool true) "true" 24] 1
     (WF.single (.bool true) "true" 24),
   C5_count_drains_or_stops.2 (ArgParser.ofStream [.ident "y" 26]) ⟨0, []⟩
     ⟨.UnexpectedToken "y", 26⟩ rfl⟩

/-- C6 (counterexample): on the stream `true (a) false`, the first
`count_arguments` call stops at the grammar error and returns 0, while a
second call consumes the remaining literal and returns 1 — refuting the
claim that two successive calls always return the same count. -/
theorem C6_count_counterexample :
    ¬ ((countArguments ((countArguments (ArgParser.ofStream
        [.literal (.bool true) "true" 31, .group "(a)" 32,
         .literal (.bool false) "false" 33])).2)).1 =
       (countArguments (ArgParser.ofStream
        [.literal (.bool true) "true" 31, .group "(a)" 32,
         .literal (.bool false) "false" 33])).1) := by
  decide

/-- C6 (amended): calling `count_arguments` twice in succession returns
the same count both times provided the first call ends by exhausting the
stream (its final state has no remaining tokens) — which is the case
whenever the remaining input is well-formed; if the first call stops at a
grammar error with tokens still unconsumed, the second call may count
further arguments. -/
theorem C6_count_idempotent_after_drain (p : ArgParser)
    (h : (countArguments p).2.stream = []) :
    (countArguments (countArguments p).2).1 = (countArguments p).1 := by
  rw [countArguments_stop_none (nextRaw_nil h)]
  exact (countArguments_spec p).2

theorem C6_count_idempotent_after_drain_witness :
    (countArguments (countArguments (ArgParser.ofStream
      [.literal (.float "1.5") "1.5" 34])).2).1 =
    (countArguments (ArgParser.ofStream
      [.literal (.float "1.5") "1.5" 34])).1 :=
  C6_count_idempotent_after_drain
    (ArgParser.ofStream [.literal (.float "1.5") "1.5" 34]) (by decide)

/-- C7 (counterexample): on the input `"x" ,` (a literal followed by a
trailing comma and nothing else), the decoder reports no error at all:
`next_raw` returns the literal, the next call returns `Ok(None)`, and
`count_arguments` reports one argument — refuting the claim that a
trailing comma yields a diagnostic. -/
theorem C7_trailing_comma_counterexample :
    (nextRaw (ArgParser.ofStream
      [.literal (.str "x") "\x22x\x22" 41, .punct ',' 42])).1 =
      .ok (some (.str "x", 41)) ∧
    (nextRaw ((nextRaw (ArgParser.ofStream
      [.literal (.str "x") "\x22x\x22" 41, .punct ',' 42])).2)).1 =
      .ok none ∧
    (countArguments (ArgParser.ofStream
      [.literal (.str "x") "\x22x\x22" 41, .punct ',' 42])).1 = 1 :=
  ⟨rfl, rfl, rfl⟩

/-- C7 (amended): for every input consisting of a literal token followed
by a comma token and nothing else, the decoder accepts the input as a
well-formed single-argument list: `next_raw` consumes both tokens and
returns the literal, the following call returns `Ok(None)`, and
`count_arguments` reports one (more) argument; no error is produced. -/
theorem C7_trailing_comma_accepted (p : ArgParser) (l : Lit) (tx : String)
    (sp sp2 : Nat)
    (hs : p.stream = [.literal l tx sp, .punct ',' sp2]) :
    nextRaw p = (.ok (some (l, sp)), ⟨p.parsed + 1, []⟩) ∧
    (nextRaw (⟨p.parsed + 1, []⟩ : ArgParser)).1 = .ok none ∧
    (countArguments p).1 = p.parsed + 1 := by
  rcases p with ⟨m, ts⟩
  simp only at hs
  subst hs
  have h1 : nextRaw ⟨m, [.literal l tx sp, .punct ',' sp2]⟩ =
      (.ok (some (l, sp)), ⟨m + 1, []⟩) := by simp [nextRaw]
  refine ⟨h1, by simp [nextRaw], ?_⟩
  rw [countArguments_step h1,
      countArguments_stop_none (nextRaw_nil rfl)]

theorem C7_trailing_comma_accepted_witness :
    nextRaw (ArgParser.ofStream
      [.literal (.integer 9) "9" 43, .punct ',' 44]) =
      (.ok (some (.integer 9, 43)), ⟨0 + 1, []⟩) ∧
    (nextRaw (⟨0 + 1, []⟩ : ArgParser)).1 = .ok none ∧
    (countArguments (ArgParser.ofStream
      [.literal (.integer 9) "9" 43, .punct ',' 44])).1 = 0 + 1 :=
  C7_trailing_comma_accepted
    (ArgParser.ofStream [.literal (.integer 9) "9" 43, .punct ',' 44])
    (.integer 9) "9" 43 44 rfl

/-- C8: on the empty token stream, `next_raw` returns `Ok(None)` with no
error, and every subsequent call returns `Ok(None)` again with the parser
state (including `parsed`) completely unchanged. -/
theorem C8_empty_stream_idempotent (p : ArgParser) (h : p.stream = []) :
    ∀ k, stateAfter p k = p ∧ resultAt p k = .ok none := by
  intro k
  induction k with
  | zero =>
    refine ⟨rfl, ?_⟩
    show (nextRaw (stateAfter p 0)).1 = _
    rw [show stateAfter p 0 = p from rfl, nextRaw_nil h]
  | succ j ihj =>
    have hstate : stateAfter p (j + 1) = p := by
      show (nextRaw (stateAfter p j)).2 = p
      rw [ihj.1, nextRaw_nil h]
    refine ⟨hstate, ?_⟩
    show (nextRaw (stateAfter p (j + 1))).1 = _
    rw [hstate, nextRaw_nil h]

theorem C8_empty_stream_idempotent_witness :
    stateAfter (ArgParser.ofStream []) 3 = ArgParser.ofStream [] ∧
    resultAt (ArgParser.ofStream []) 3 = .ok none :=
  C8_empty_stream_idempotent (ArgParser.ofStream []) rfl 3

/-- C9: `parsed` never decreases under any decoder operation, and a
`next_raw` call increments it by exactly one when it returns
`Ok(Some(..))` and leaves it unchanged when it returns `Ok(None)` or an
error. -/
theorem C9_parsed_monotone (p : ArgParser) (rep : IntRep) :
    ((nextRaw p).2.parsed =
      if isOkSome (nextRaw p).1 then p.parsed + 1 else p.parsed) ∧
    p.parsed ≤ (nextString p).2.parsed ∧
    p.parsed ≤ (nextInteger rep p).2.parsed ∧
    p.parsed ≤ (ignoreNext p).2.parsed ∧
    p.parsed ≤ (countArguments p).2.parsed := by
  refine ⟨nextRaw_parsed_delta p, ?_, ?_, ?_, ?_⟩
  · rw [nextString_state]
    exact nextRaw_parsed_le p
  · rw [nextInteger_state]
    exact nextRaw_parsed_le p
  · rw [ignoreNext_state]
    exact nextRaw_parsed_le p
  · have hs := countArguments_spec p
    omega

/-- C10: when `next_string` or `next_integer` fails with a coercion error
— `next_string` with `BadType` on a non-string literal, `next_integer`
with `BadType` on a non-integer literal, or `next_integer` with
`OutOfBound` on an integer literal out of range — the offending argument
and its separator have already been consumed (the final state is the one
`next_raw` left), `parsed` has already been incremented for it, a later
`count_arguments` call includes it in the count, and the error's location
is the literal's own span. -/
theorem C10_coercion_error_state (p : ArgParser) (rep : IntRep) :
    (∀ l sp p', nextRaw p = (.ok (some (l, sp)), p') →
        (∀ s, l ≠ .str s) →
        nextString p =
          (.error ⟨.BadType (LiteralType.ofLit l) .String, sp⟩, p') ∧
        p'.parsed = p.parsed + 1 ∧
        p.parsed + 1 ≤ (countArguments p').1) ∧
    (∀ l sp p', nextRaw p = (.ok (some (l, sp)), p') →
        (∀ v, l ≠ .integer v) →
        nextInteger rep p =
          (.error ⟨.BadType (LiteralType.ofLit l) .Integer, sp⟩, p') ∧
        p'.parsed = p.parsed + 1 ∧
        p.parsed + 1 ≤ (countArguments p').1) ∧
    (∀ v sp p', nextRaw p = (.ok (some (.integer v, sp)), p') →
        rep.maxVal < v →
        nextInteger rep p = (.error ⟨.OutOfBound, sp⟩, p') ∧
        p'.parsed = p.parsed + 1 ∧
        p.parsed + 1 ≤ (countArguments p').1) := by
  refine ⟨?_, ?_, ?_⟩
  · intro l sp p' h hs
    have hp := nextRaw_parsed_ok_some h
    have hc := (countArguments_spec p').1
    exact ⟨nextString_badtype h hs, hp, by omega⟩
  · intro l sp p' h hi
    have hp := nextRaw_parsed_ok_some h
    have hc := (countArguments_spec p').1
    exact ⟨nextInteger_badtype h hi, hp, by omega⟩
  · intro v sp p' h hv
    have hp := nextRaw_parsed_ok_some h
    have hc := (countArguments_spec p').1
    exact ⟨nextInteger_oob h hv, hp, by omega⟩

theorem C10_coercion_error_state_witness :
    (nextString (ArgParser.ofStream
      [.literal (.bool true) "true" 51, .punct ',' 52,
       .literal (.str "b") "\x22b\x22" 53]) =
      (.error ⟨.BadType .Bool .String, 51⟩,
       ⟨1, [.literal (.str "b") "\x22b\x22" 53]⟩) ∧
     (1 : Nat) = 0 + 1 ∧
     0 + 1 ≤ (countArguments
       (⟨1, [.literal (.str "b") "\x22b\x22" 53]⟩ : ArgParser)).1) ∧
    (nextInteger .u32 (ArgParser.ofStream
      [.literal (.str "x") "\x22x\x22" 55]) =
      (.error ⟨.BadType .String .Integer, 55⟩, ⟨1, []⟩) ∧
     (1 : Nat) = 0 + 1 ∧
     0 + 1 ≤ (countArguments (⟨1, []⟩ : ArgParser)).1) ∧
    (nextInteger .u8 (ArgParser.ofStream
      [.literal (.integer 300) "300" 54]) =
      (.error ⟨.OutOfBound, 54⟩, ⟨1, []⟩) ∧
     (1 : Nat) = 0 + 1 ∧
     0 + 1 ≤ (countArguments (⟨1, []⟩ : ArgParser)).1) :=
  ⟨(C10_coercion_error_state (ArgParser.ofStream
      [.literal (.bool true) "true" 51, .punct ',' 52,
       .literal (.str "b") "\x22b\x22" 53]) .u8).1
     (.bool true) 51 ⟨1, [.literal (.str "b") "\x22b\x22" 53]⟩
     rfl (by intro s; simp),
   (C10_coercion_error_state (ArgParser.ofStream
      [.literal (.str "x") "\x22x\x22" 55]) .u32).2.1
     (.str "x") 55 ⟨1, []⟩ rfl (by intro v; simp),
   (C10_coercion_error_state (ArgParser.ofStream
      [.literal (.integer 300) "300" 54]) .u8).2.2
     300 54 ⟨1, []⟩ rfl (by decide)⟩

end FancyIp
